import Mathlib

/-!
Shallow embedding of the `crio` persistent record store (`src/lib.rs`).

Byte streams are modelled as `List Nat` (each element a byte value `< 256`
where it matters).  File readers are pure list consumers; writers build
lists.  Machine integers are `Nat` with explicit `< 2 ^ 32` bounds.

External collaborators (the `bincode` value codec) are modelled as
parameters: an encoder `enc : T → List Nat` (total, per the spec: "a
value-encoder producing a byte sequence of known length for any value of
type T") and a decoder `dec : List Nat → Option T` (`none` = decode
failure).  The CRC-32/ISO-HDLC checksum used through the `crc` crate is
implemented concretely below (bitwise, reflected, init and xorout
`0xFFFFFFFF`) and validated against the standard check value.
-/

/-- The magic constant `FILE_HEADER` from the source. -/
def FILE_HEADER : Nat := 67297350

/-- The supported format version `FILE_VERSION` from the source. -/
def FILE_VERSION : Nat := 2

/-- Reflected CRC-32 polynomial (ISO-HDLC / IEEE 802.3), as used by
`Crc::<u32>::new(&CRC_32_ISO_HDLC)` in the source. -/
def CRC_POLY : Nat := 0xEDB88320

/-- One shift step of the reflected CRC-32 bit loop. -/
def crcStep (c : Nat) : Nat :=
  if c % 2 = 1 then (c / 2) ^^^ CRC_POLY else c / 2

/-- Explicit inverse of `crcStep` on 32-bit states (used to prove that a
CRC state update is injective, hence that CRC-32 detects any single-byte
change). -/
def crcStepInv (x : Nat) : Nat :=
  if x.testBit 31 = true then 2 * (x ^^^ CRC_POLY) + 1 else 2 * x

/-- `n` CRC bit steps. -/
def crcSteps : Nat → Nat → Nat
  | 0, c => c
  | n + 1, c => crcSteps n (crcStep c)

/-- CRC-32 state update for one input byte: xor the byte in, then run the
bit loop eight times. -/
def crcUpdate (c b : Nat) : Nat := crcSteps 8 (c ^^^ b)

/-- CRC-32/ISO-HDLC digest of a byte sequence: `CRC.checksum(&data)` in the
source (init `0xFFFFFFFF`, reflected, xorout `0xFFFFFFFF`). -/
def crc32 (data : List Nat) : Nat :=
  (data.foldl crcUpdate 0xFFFFFFFF) ^^^ 0xFFFFFFFF

/-- Little-endian 4-byte encoding of a `u32` value:
`write_u32::<LittleEndian>` in the source. -/
def le32 (x : Nat) : List Nat :=
  [x % 256, x / 256 % 256, x / 65536 % 256, x / 16777216 % 256]

/-- Little-endian `u32` read (`read_u32::<LittleEndian>`): consumes four
bytes, or fails (`ErrorKind::UnexpectedEof`) when fewer than four remain. -/
def readU32 : List Nat → Option (Nat × List Nat)
  | b0 :: b1 :: b2 :: b3 :: rest =>
      some (b0 + 256 * b1 + 65536 * b2 + 16777216 * b3, rest)
  | _ => none

/-- The `Checksum` diagnostic pair from the source. -/
structure Checksum where
  saved_checksum : Nat
  expected_checksum : Nat
deriving DecidableEq, Repr

/-- `InnerDatabaseError` from the source.  For an in-memory byte-slice
reader, the only reachable `Io` error is `UnexpectedEof`. -/
inductive InnerDatabaseError where
  | ioEof : InnerDatabaseError
  | mismatchedChecksum : Checksum → List Nat → InnerDatabaseError
deriving DecidableEq, Repr

/-- `DataPoisonError<T>` from the source: the recovered collection plus the
diagnostic checksum pair. -/
structure DataPoisonError (T : Type) where
  collection : List T
  checksum : Checksum
deriving DecidableEq, Repr

/-- `DatabaseError<T>` from the source.  `ioError` stands for an `Io` error
other than the end-of-stream handled inside the load loop; `serdeError`
stands for `SerdeError(bincode::Error)` (the payload of the `bincode` error
value carries no information used by the library). -/
inductive DatabaseError (T : Type) where
  | ioError : DatabaseError T
  | mismatchedChecksum : DataPoisonError T → DatabaseError T
  | dataTooLarge : DatabaseError T
  | serdeError : DatabaseError T
  | fileHeader : DatabaseError T
  | fileVersion : Nat → DatabaseError T
deriving DecidableEq, Repr

/-- `process_document` from the source: read the saved checksum and the
payload length (4 bytes each, little-endian), then take *up to* `data_len`
payload bytes (`f.take(u64::from(data_len)).read_to_end(..)` reads to
end-of-stream without error when fewer bytes remain).  Recompute the
checksum; on disagreement return `MismatchedChecksum` together with the
payload.  The second component is the advanced reader state (`&mut R`). -/
def process_document (f : List Nat) :
    Except InnerDatabaseError (List Nat) × List Nat :=
  match readU32 f with
  | none => (.error .ioEof, f)
  | some (saved_checksum, f1) =>
    match readU32 f1 with
    | none => (.error .ioEof, f1)
    | some (data_len, f2) =>
      let data := f2.take data_len
      let rest := f2.drop data_len
      let expected_checksum := crc32 data
      if expected_checksum ≠ saved_checksum then
        (.error (.mismatchedChecksum ⟨saved_checksum, expected_checksum⟩ data), rest)
      else
        (.ok data, rest)

/-- `validate_collection` from the source: the first `read_u32` failure is
mapped to `FileHeader`, the second to `FileVersion(1)`; then the magic and
version words are compared against the constants. -/
def validate_collection (T : Type) (f : List Nat) :
    Except (DatabaseError T) (List Nat) :=
  match readU32 f with
  | none => .error .fileHeader
  | some (saved_file_header, f1) =>
    if saved_file_header ≠ FILE_HEADER then .error .fileHeader
    else
      match readU32 f1 with
      | none => .error (.fileVersion 1)
      | some (saved_file_version, f2) =>
        if saved_file_version ≠ FILE_VERSION then .error (.fileVersion saved_file_version)
        else .ok f2

/-- The record-scanning loop of `binary_to_vec`, made structural with a
fuel argument.  Every iteration that recurses consumes at least the 8
framing bytes from the stream, so fuel `f.length + 1` can never run out;
the fuel-exhausted branch (returning the otherwise unreachable generic
`Io` error) is dead code for the fuel used by `binary_to_vec`.
Each pass mirrors the Rust `loop`: `UnexpectedEof` breaks the loop,
a checksum mismatch records the diagnostic pair in `is_corrupted` and
keeps the payload, and the payload is then decoded (`bincode::deserialize`)
with a decode failure aborting everything (`serdeError`).  On the break,
a recorded mismatch turns the whole result into
`MismatchedChecksum(DataPoisonError::new(result, checksum_data))`. -/
def scanLoop {T : Type} (dec : List Nat → Option T) :
    Nat → List Nat → Option Checksum → List T → Except (DatabaseError T) (List T)
  | 0, _, _, _ => .error .ioError
  | fuel + 1, f, is_corrupted, result =>
    match process_document f with
    | (.error .ioEof, _) =>
      match is_corrupted with
      | some checksum_data => .error (.mismatchedChecksum ⟨result, checksum_data⟩)
      | none => .ok result
    | (.ok raw_doc, rest) =>
      match dec raw_doc with
      | none => .error .serdeError
      | some data => scanLoop dec fuel rest is_corrupted (result ++ [data])
    | (.error (.mismatchedChecksum checksum raw_doc), rest) =>
      match dec raw_doc with
      | none => .error .serdeError
      | some data => scanLoop dec fuel rest (some checksum) (result ++ [data])

/-- `binary_to_vec` from the source: validate the container header, then
scan records until end-of-stream, deferring checksum mismatches. -/
def binary_to_vec {T : Type} (dec : List Nat → Option T) (raw_data : List Nat) :
    Except (DatabaseError T) (List T) :=
  match validate_collection T raw_data with
  | .error e => .error e
  | .ok rest => scanLoop dec (rest.length + 1) rest none []

/-- The record-emitting loop of `vec_to_binary`: for each document, encode
it, and emit `checksum ++ length ++ payload` provided the length fits in a
`u32` (`u32::try_from(data_len)`), aborting with `DataTooLarge` otherwise. -/
def docsToBinary {T : Type} (enc : T → List Nat) : List T → Except (DatabaseError T) (List Nat)
  | [] => .ok []
  | document :: ds =>
    let raw_data := enc document
    if raw_data.length < 2 ^ 32 then
      match docsToBinary enc ds with
      | .error e => .error e
      | .ok rest => .ok (le32 (crc32 raw_data) ++ le32 raw_data.length ++ raw_data ++ rest)
    else .error .dataTooLarge

/-- `vec_to_binary` from the source: the 8-byte header (magic then version,
little-endian) followed by the framed records. -/
def vec_to_binary {T : Type} (enc : T → List Nat) (data : List T) :
    Except (DatabaseError T) (List Nat) :=
  match docsToBinary enc data with
  | .error e => .error e
  | .ok body => .ok (le32 FILE_HEADER ++ le32 FILE_VERSION ++ body)

/-- One framed record as it appears on the wire:
`[checksum:4][length:4][payload:length]`, little-endian. -/
def frame (r : Nat × List Nat) : List Nat :=
  le32 r.1 ++ le32 r.2.length ++ r.2

/-- The 8-byte container header. -/
def headerBytes : List Nat := le32 FILE_HEADER ++ le32 FILE_VERSION

/-- Decode a list of payloads, failing if any payload fails to decode
(mirrors the decode step performed record by record inside the load loop). -/
def decodeAll {T : Type} (dec : List Nat → Option T) : List (List Nat) → Option (List T)
  | [] => some []
  | p :: ps =>
    match dec p with
    | none => none
    | some v =>
      match decodeAll dec ps with
      | none => none
      | some vs => some (v :: vs)

/-- The evolution of the `is_corrupted` diagnostic across a record list:
each record whose recomputed checksum disagrees with its stored checksum
overwrites the remembered pair. -/
def mismatchFold (is_corrupted : Option Checksum) (rs : List (Nat × List Nat)) :
    Option Checksum :=
  rs.foldl
    (fun co r => if crc32 r.2 = r.1 then co else some ⟨r.1, crc32 r.2⟩)
    is_corrupted

/-- Reference form of the scan loop over already-split records
`(saved_checksum, payload)`: decode each payload (mismatching records
included, best effort), abort on decode failure, remember the last
mismatch. -/
def scanSpec {T : Type} (dec : List Nat → Option T) :
    List (Nat × List Nat) → Option Checksum → List T → Except (DatabaseError T) (List T)
  | [], is_corrupted, result =>
    match is_corrupted with
    | some checksum_data => .error (.mismatchedChecksum ⟨result, checksum_data⟩)
    | none => .ok result
  | (saved, payload) :: rs, is_corrupted, result =>
    match dec payload with
    | none => .error .serdeError
    | some v =>
      scanSpec dec rs
        (if crc32 payload = saved then is_corrupted else some ⟨saved, crc32 payload⟩)
        (result ++ [v])

/-- The observable state of a `Client<T>`'s backing file: its contents, the
file cursor, and whether the handle was opened in append mode. -/
structure ClientState where
  contents : List Nat
  cursor : Nat
  append : Bool
deriving DecidableEq, Repr

/-- `file.write_all(&buf)`: overwrite bytes starting at the write position
(the end of the file in append mode, the current cursor otherwise) and
advance the cursor. -/
def writeAll (s : ClientState) (buf : List Nat) : ClientState :=
  let pos := if s.append then s.contents.length else s.cursor
  { s with
    contents := s.contents.take pos ++ buf ++ s.contents.drop (pos + buf.length)
    cursor := pos + buf.length }

namespace Client

/-- `Client::new`: append mode opens the existing file as is; otherwise the
file is opened with `truncate(true)`, discarding any previous contents. -/
def new (append : Bool) (existing : List Nat) : ClientState :=
  if append then ⟨existing, 0, true⟩ else ⟨[], 0, false⟩

/-- `Client::write_many`: serialize the slice with `vec_to_binary` and
write the resulting buffer at the current position (no seek, no
truncation).  On a serialization error nothing is written. -/
def write_many {T : Type} (enc : T → List Nat) (data : List T) (s : ClientState) :
    Except (DatabaseError T) Unit × ClientState :=
  match vec_to_binary enc data with
  | .error e => (.error e, s)
  | .ok buf => (.ok (), writeAll s buf)

/-- `Client::write`: `write_many` on the one-element slice
`std::array::from_ref(data)`. -/
def write {T : Type} (enc : T → List Nat) (data : T) (s : ClientState) :
    Except (DatabaseError T) Unit × ClientState :=
  write_many enc [data] s

/-- `Client::load`: seek to the start, read the whole file, return
`Ok(None)` for an empty buffer, and otherwise decode with
`binary_to_vec`. -/
def load {T : Type} (dec : List Nat → Option T) (s : ClientState) :
    Except (DatabaseError T) (Option (List T)) × ClientState :=
  let buf := s.contents
  let s2 : ClientState := { s with cursor := buf.length }
  if buf.isEmpty then (.ok none, s2)
  else
    match binary_to_vec dec buf with
    | .error e => (.error e, s2)
    | .ok result => (.ok (some result), s2)

end Client

/-! ## Basic byte-level lemmas -/

lemma le32_length (x : Nat) : (le32 x).length = 4 := rfl

lemma readU32_le32 (x : Nat) (hx : x < 2 ^ 32) (rest : List Nat) :
    readU32 (le32 x ++ rest) = some (x, rest) := by
  simp only [le32, List.cons_append, List.nil_append, readU32, Option.some.injEq, Prod.mk.injEq,
    and_true]
  omega

lemma readU32_none (f : List Nat) (h : f.length < 4) : readU32 f = none := by
  rcases f with _ | ⟨a, _ | ⟨b, _ | ⟨c, _ | ⟨d, r⟩⟩⟩⟩
  · rfl
  · rfl
  · rfl
  · rfl
  · simp [List.length_cons] at h
    omega

lemma readU32_some_length {f : List Nat} {x : Nat} {rest : List Nat}
    (h : readU32 f = some (x, rest)) : f.length = rest.length + 4 := by
  rcases f with _ | ⟨a, _ | ⟨b, _ | ⟨c, _ | ⟨d, r⟩⟩⟩⟩ <;>
    simp [readU32] at h
  obtain ⟨-, h2⟩ := h
  subst h2
  simp [List.length_cons]

/-! ## CRC-32 lemmas: bound, injectivity of the state update, and
detection of a single-byte change -/

lemma crcStep_lt {c : Nat} (hc : c < 2 ^ 32) : crcStep c < 2 ^ 32 := by
  unfold crcStep
  split
  · exact Nat.xor_lt_two_pow (by omega) (by decide)
  · omega

lemma crcStepInv_crcStep (c : Nat) (hc : c < 2 ^ 32) : crcStepInv (crcStep c) = c := by
  have h2 : c / 2 < 2 ^ 31 := by omega
  rcases Nat.mod_two_eq_zero_or_one c with h | h
  · have hstep : crcStep c = c / 2 := by
      unfold crcStep
      rw [if_neg (show ¬ c % 2 = 1 by omega)]
    rw [hstep]
    unfold crcStepInv
    rw [if_neg (show ¬ (c / 2).testBit 31 = true by
      simp [Nat.testBit_eq_false_of_lt h2])]
    omega
  · have hstep : crcStep c = (c / 2) ^^^ CRC_POLY := by
      unfold crcStep
      rw [if_pos h]
    rw [hstep]
    unfold crcStepInv
    have hbit : ((c / 2) ^^^ CRC_POLY).testBit 31 = true := by
      rw [Nat.testBit_xor, Nat.testBit_eq_false_of_lt h2]
      decide
    rw [if_pos hbit, Nat.xor_cancel_right]
    omega

lemma crcStep_inj {a b : Nat} (ha : a < 2 ^ 32) (hb : b < 2 ^ 32)
    (h : crcStep a = crcStep b) : a = b := by
  rw [← crcStepInv_crcStep a ha, ← crcStepInv_crcStep b hb, h]

lemma crcSteps_lt (n : Nat) {c : Nat} (hc : c < 2 ^ 32) : crcSteps n c < 2 ^ 32 := by
  induction n generalizing c with
  | zero => exact hc
  | succ n ih => exact ih (crcStep_lt hc)

lemma crcSteps_inj (n : Nat) {a b : Nat} (ha : a < 2 ^ 32) (hb : b < 2 ^ 32)
    (h : crcSteps n a = crcSteps n b) : a = b := by
  induction n generalizing a b with
  | zero => exact h
  | succ n ih => exact crcStep_inj ha hb (ih (crcStep_lt ha) (crcStep_lt hb) h)

lemma crcUpdate_lt {c b : Nat} (hc : c < 2 ^ 32) (hb : b < 2 ^ 32) :
    crcUpdate c b < 2 ^ 32 :=
  crcSteps_lt 8 (Nat.xor_lt_two_pow hc hb)

lemma crcUpdate_inj_state {c c2 b : Nat} (hc : c < 2 ^ 32) (hc2 : c2 < 2 ^ 32)
    (hb : b < 2 ^ 32) (h : crcUpdate c b = crcUpdate c2 b) : c = c2 := by
  have h1 : c ^^^ b = c2 ^^^ b :=
    crcSteps_inj 8 (Nat.xor_lt_two_pow hc hb) (Nat.xor_lt_two_pow hc2 hb) h
  have h2 : (c ^^^ b) ^^^ b = (c2 ^^^ b) ^^^ b := by rw [h1]
  rwa [Nat.xor_cancel_right, Nat.xor_cancel_right] at h2

lemma crcUpdate_inj_byte {c b b2 : Nat} (hc : c < 2 ^ 32) (hb : b < 2 ^ 32)
    (hb2 : b2 < 2 ^ 32) (h : crcUpdate c b = crcUpdate c b2) : b = b2 := by
  have h1 : c ^^^ b = c ^^^ b2 :=
    crcSteps_inj 8 (Nat.xor_lt_two_pow hc hb) (Nat.xor_lt_two_pow hc hb2) h
  have h2 : c ^^^ (c ^^^ b) = c ^^^ (c ^^^ b2) := by rw [h1]
  rwa [Nat.xor_cancel_left, Nat.xor_cancel_left] at h2

lemma foldl_crcUpdate_lt (l : List Nat) (hl : ∀ x ∈ l, x < 2 ^ 32) {c : Nat}
    (hc : c < 2 ^ 32) : l.foldl crcUpdate c < 2 ^ 32 := by
  induction l generalizing c with
  | nil => exact hc
  | cons a l ih =>
    exact ih (fun x hx => hl x (List.mem_cons_of_mem a hx))
      (crcUpdate_lt hc (hl a (List.mem_cons_self a l)))

lemma foldl_crcUpdate_inj (l : List Nat) (hl : ∀ x ∈ l, x < 2 ^ 32) {c c2 : Nat}
    (hc : c < 2 ^ 32) (hc2 : c2 < 2 ^ 32)
    (h : l.foldl crcUpdate c = l.foldl crcUpdate c2) : c = c2 := by
  induction l generalizing c c2 with
  | nil => exact h
  | cons a l ih =>
    have ha : a < 2 ^ 32 := hl a (List.mem_cons_self a l)
    have htail := ih (fun x hx => hl x (List.mem_cons_of_mem a hx))
      (crcUpdate_lt hc ha) (crcUpdate_lt hc2 ha) h
    exact crcUpdate_inj_state hc hc2 ha htail

lemma crc32_lt (l : List Nat) (hl : ∀ x ∈ l, x < 2 ^ 32) : crc32 l < 2 ^ 32 :=
  Nat.xor_lt_two_pow (foldl_crcUpdate_lt l hl (by decide)) (by decide)

/-- CRC-32 detects any change of a single byte (same length): flipping one
payload byte always changes the digest. -/
lemma crc32_flip_ne (pre suf : List Nat) {b b2 : Nat} (hb : b < 2 ^ 32)
    (hb2 : b2 < 2 ^ 32) (hne : b ≠ b2) (hpre : ∀ x ∈ pre, x < 2 ^ 32)
    (hsuf : ∀ x ∈ suf, x < 2 ^ 32) :
    crc32 (pre ++ b :: suf) ≠ crc32 (pre ++ b2 :: suf) := by
  unfold crc32
  intro h
  have h1 : (pre ++ b :: suf).foldl crcUpdate 0xFFFFFFFF =
      (pre ++ b2 :: suf).foldl crcUpdate 0xFFFFFFFF := by
    have h2 := congrArg (fun z => z ^^^ 0xFFFFFFFF) h
    simpa [Nat.xor_cancel_right] using h2
  rw [List.foldl_append, List.foldl_append, List.foldl_cons, List.foldl_cons] at h1
  have hslt : pre.foldl crcUpdate 0xFFFFFFFF < 2 ^ 32 :=
    foldl_crcUpdate_lt pre hpre (by decide)
  have h3 : crcUpdate (pre.foldl crcUpdate 0xFFFFFFFF) b =
      crcUpdate (pre.foldl crcUpdate 0xFFFFFFFF) b2 :=
    foldl_crcUpdate_inj suf hsuf (crcUpdate_lt hslt hb) (crcUpdate_lt hslt hb2) h1
  exact hne (crcUpdate_inj_byte hslt hb hb2 h3)

set_option maxRecDepth 100000 in
/-- Sanity check: the implemented digest matches the published
CRC-32/ISO-HDLC check value on the bytes of `"123456789"`. -/
lemma crc32_check_value : crc32 [49, 50, 51, 52, 53, 54, 55, 56, 57] = 0xCBF43926 := by
  decide

/-! ## Characterizing the record scan -/

lemma process_document_eof {f : List Nat} (h : f.length < 8) :
    ∃ g, process_document f = (.error .ioEof, g) := by
  cases h1 : readU32 f with
  | none => exact ⟨f, by simp [process_document, h1]⟩
  | some p =>
    obtain ⟨x, f1⟩ := p
    have hf1 : f1.length < 4 := by
      have := readU32_some_length h1
      omega
    exact ⟨f1, by simp [process_document, h1, readU32_none f1 hf1]⟩

lemma process_document_frame (saved : Nat) (payload t : List Nat)
    (hs : saved < 2 ^ 32) (hl : payload.length < 2 ^ 32) :
    process_document (frame (saved, payload) ++ t) =
      if crc32 payload ≠ saved then
        (.error (.mismatchedChecksum ⟨saved, crc32 payload⟩ payload), t)
      else (.ok payload, t) := by
  have e1 : frame (saved, payload) ++ t =
      le32 saved ++ (le32 payload.length ++ (payload ++ t)) := by
    simp [frame, List.append_assoc]
  rw [e1]
  simp only [process_document, readU32_le32 saved hs,
    readU32_le32 payload.length hl, List.take_left, List.drop_left]

lemma frame_length (r : Nat × List Nat) : (frame r).length = 8 + r.2.length := by
  simp [frame, le32]
  omega

lemma scanLoop_join {T : Type} (dec : List Nat → Option T)
    (rs : List (Nat × List Nat)) (t : List Nat)
    (hb : ∀ r ∈ rs, r.1 < 2 ^ 32 ∧ r.2.length < 2 ^ 32) (ht : t.length < 8) :
    ∀ fuel, ((rs.map frame).flatten ++ t).length < fuel → ∀ corr acc,
      scanLoop dec fuel ((rs.map frame).flatten ++ t) corr acc = scanSpec dec rs corr acc := by
  induction rs with
  | nil =>
    intro fuel hfuel corr acc
    simp only [List.map_nil, List.flatten_nil, List.nil_append] at hfuel ⊢
    match fuel, hfuel with
    | fuel + 1, _ =>
      obtain ⟨g, hg⟩ := process_document_eof (f := t) ht
      cases corr <;> simp [scanLoop, hg, scanSpec]
  | cons r rs ih =>
    intro fuel hfuel corr acc
    obtain ⟨saved, payload⟩ := r
    have hhd := hb (saved, payload) (List.mem_cons_self _ _)
    have htl : ∀ r ∈ rs, r.1 < 2 ^ 32 ∧ r.2.length < 2 ^ 32 :=
      fun r hr => hb r (List.mem_cons_of_mem _ hr)
    have e1 : (((saved, payload) :: rs).map frame).flatten ++ t =
        frame (saved, payload) ++ ((rs.map frame).flatten ++ t) := by
      simp [List.append_assoc]
    rw [e1] at hfuel ⊢
    have hflen : (frame (saved, payload) ++ ((rs.map frame).flatten ++ t)).length =
        8 + payload.length + ((rs.map frame).flatten ++ t).length := by
      simp [List.length_append, frame_length]
    match fuel with
    | fuel + 1 =>
      simp only [scanLoop, process_document_frame saved payload _ hhd.1 hhd.2]
      have hrest : ((rs.map frame).flatten ++ t).length < fuel := by omega
      by_cases hcs : crc32 payload = saved
      · rw [if_neg (show ¬ crc32 payload ≠ saved by simpa using hcs)]
        simp only [scanSpec]
        cases hd : dec payload with
        | none => simp
        | some v =>
          simp only [if_pos hcs]
          exact ih htl fuel hrest corr (acc ++ [v])
      · rw [if_pos hcs]
        simp only [scanSpec]
        cases hd : dec payload with
        | none => simp
        | some v =>
          simp only [if_neg hcs]
          exact ih htl fuel hrest (some ⟨saved, crc32 payload⟩) (acc ++ [v])

lemma scanSpec_eq {T : Type} (dec : List Nat → Option T) (rs : List (Nat × List Nat)) :
    ∀ corr acc,
    scanSpec dec rs corr acc =
      match decodeAll dec (rs.map Prod.snd) with
      | none => .error .serdeError
      | some vs =>
        match mismatchFold corr rs with
        | none => .ok (acc ++ vs)
        | some c => .error (.mismatchedChecksum ⟨acc ++ vs, c⟩) := by
  induction rs with
  | nil =>
    intro corr acc
    cases corr <;> simp [scanSpec, decodeAll, mismatchFold]
  | cons r rs ih =>
    intro corr acc
    obtain ⟨saved, payload⟩ := r
    cases hd : dec payload with
    | none => simp [scanSpec, decodeAll, hd]
    | some v =>
      simp only [scanSpec, List.map_cons, decodeAll, hd]
      rw [ih]
      have hmf : mismatchFold corr ((saved, payload) :: rs) =
          mismatchFold
            (if crc32 payload = saved then corr else some ⟨saved, crc32 payload⟩) rs := by
        simp [mismatchFold, List.foldl_cons]
      rw [hmf]
      cases decodeAll dec (rs.map Prod.snd) with
      | none => simp
      | some vs =>
        cases mismatchFold
            (if crc32 payload = saved then corr else some ⟨saved, crc32 payload⟩) rs <;>
          simp [List.append_assoc]

lemma decodeAll_append {T : Type} (dec : List Nat → Option T) (l1 l2 : List (List Nat)) :
    decodeAll dec (l1 ++ l2) =
      match decodeAll dec l1 with
      | none => none
      | some v1 =>
        match decodeAll dec l2 with
        | none => none
        | some v2 => some (v1 ++ v2) := by
  induction l1 with
  | nil =>
    cases h2 : decodeAll dec l2 <;> simp [decodeAll, h2]
  | cons p l1 ih =>
    cases hd : dec p with
    | none => simp [decodeAll, hd]
    | some v =>
      simp only [List.cons_append, decodeAll, hd, List.append_eq]
      rw [ih]
      cases decodeAll dec l1 with
      | none => simp
      | some v1 =>
        cases decodeAll dec l2 <;> simp

lemma mismatchFold_append (corr : Option Checksum) (l1 l2 : List (Nat × List Nat)) :
    mismatchFold corr (l1 ++ l2) = mismatchFold (mismatchFold corr l1) l2 := by
  simp [mismatchFold, List.foldl_append]

lemma mismatchFold_good (rs : List (Nat × List Nat))
    (h : ∀ r ∈ rs, crc32 r.2 = r.1) (corr : Option Checksum) :
    mismatchFold corr rs = corr := by
  induction rs generalizing corr with
  | nil => rfl
  | cons r rs ih =>
    have hr := h r (List.mem_cons_self _ _)
    simp only [mismatchFold, List.foldl_cons, if_pos hr]
    exact ih (fun x hx => h x (List.mem_cons_of_mem _ hx)) corr

lemma binary_to_vec_container {T : Type} (dec : List Nat → Option T)
    (rs : List (Nat × List Nat)) (t : List Nat)
    (hb : ∀ r ∈ rs, r.1 < 2 ^ 32 ∧ r.2.length < 2 ^ 32) (ht : t.length < 8) :
    binary_to_vec dec (headerBytes ++ ((rs.map frame).flatten ++ t)) =
      scanSpec dec rs none [] := by
  have hv : validate_collection T (headerBytes ++ ((rs.map frame).flatten ++ t)) =
      .ok ((rs.map frame).flatten ++ t) := by
    have e1 : headerBytes ++ ((rs.map frame).flatten ++ t) =
        le32 FILE_HEADER ++ (le32 FILE_VERSION ++ ((rs.map frame).flatten ++ t)) := by
      simp [headerBytes, List.append_assoc]
    rw [e1]
    simp [validate_collection, readU32_le32 FILE_HEADER (by decide),
      readU32_le32 FILE_VERSION (by decide)]
  simp only [binary_to_vec, hv]
  exact scanLoop_join dec rs t hb ht _ (by omega) none []

/-! ## Characterizing serialization -/

lemma docsToBinary_ok {T : Type} (enc : T → List Nat) (ts : List T)
    (h : ∀ x ∈ ts, (enc x).length < 2 ^ 32) :
    docsToBinary enc ts =
      .ok ((ts.map (fun x => frame (crc32 (enc x), enc x))).flatten) := by
  induction ts with
  | nil => simp [docsToBinary]
  | cons d ds ih =>
    simp only [docsToBinary]
    rw [if_pos (h d (List.mem_cons_self _ _))]
    rw [ih (fun x hx => h x (List.mem_cons_of_mem _ hx))]
    simp [frame, List.append_assoc]

lemma docsToBinary_too_large {T : Type} (enc : T → List Nat) (ts : List T)
    (h : ∃ x ∈ ts, 2 ^ 32 ≤ (enc x).length) :
    docsToBinary enc ts = .error .dataTooLarge := by
  induction ts with
  | nil => simp at h
  | cons d ds ih =>
    simp only [docsToBinary]
    by_cases hd : (enc d).length < 2 ^ 32
    · rw [if_pos hd]
      have h2 : ∃ x ∈ ds, 2 ^ 32 ≤ (enc x).length := by
        obtain ⟨x, hx, hlen⟩ := h
        rcases List.mem_cons.mp hx with rfl | hx2
        · omega
        · exact ⟨x, hx2, hlen⟩
      rw [ih h2]
    · rw [if_neg hd]

lemma vec_to_binary_ok {T : Type} (enc : T → List Nat) (ts : List T)
    (h : ∀ x ∈ ts, (enc x).length < 2 ^ 32) :
    vec_to_binary enc ts =
      .ok (headerBytes ++ ((ts.map (fun x => frame (crc32 (enc x), enc x))).flatten)) := by
  simp [vec_to_binary, docsToBinary_ok enc ts h, headerBytes, List.append_assoc]

lemma decodeAll_map {T : Type} (dec : List Nat → Option T) (enc : T → List Nat)
    (V : List T) (h : ∀ t ∈ V, dec (enc t) = some t) :
    decodeAll dec (V.map enc) = some V := by
  induction V with
  | nil => rfl
  | cons a V ih =>
    simp only [List.map_cons, decodeAll, h a (List.mem_cons_self _ _)]
    rw [ih (fun t ht => h t (List.mem_cons_of_mem _ ht))]

/-! ## The claims -/

/-- Claim C5: on the empty byte input, `load` returns the distinct
"no data" outcome `Ok(None)`; this outcome is distinct from any error; and
the header validator (which would reject the empty input) is not what
produced it. -/
theorem c5_empty_input (T : Type) (dec : List Nat → Option T) (cur : Nat) (app : Bool) :
    (Client.load dec ⟨[], cur, app⟩).1 = .ok none
    ∧ (∀ e : DatabaseError T,
        (.ok none : Except (DatabaseError T) (Option (List T))) ≠ .error e)
    ∧ validate_collection T [] = .error .fileHeader := by
  refine ⟨?_, ?_, ?_⟩
  · simp [Client.load]
  · intro e h
    exact Except.noConfusion h
  · rfl

/-- Claim C4: an input whose first four little-endian bytes are not the
magic constant makes `load` fail with `FileHeader`; an input with a valid
magic but a version word different from `FILE_VERSION` makes `load` fail
with `FileVersion(found)`, whatever the remaining bytes are. -/
theorem c4_header_rejection (T : Type) (dec : List Nat → Option T) :
    (∀ b0 b1 b2 b3 rest cur app,
      b0 + 256 * b1 + 65536 * b2 + 16777216 * b3 ≠ FILE_HEADER →
      (Client.load dec ⟨b0 :: b1 :: b2 :: b3 :: rest, cur, app⟩).1 = .error .fileHeader)
    ∧ (∀ v rest cur app, v < 2 ^ 32 → v ≠ FILE_VERSION →
      (Client.load dec ⟨le32 FILE_HEADER ++ le32 v ++ rest, cur, app⟩).1 =
        .error (.fileVersion v)) := by
  constructor
  · intro b0 b1 b2 b3 rest cur app hne
    have hval : validate_collection T (b0 :: b1 :: b2 :: b3 :: rest) =
        .error .fileHeader := by
      simp only [validate_collection, readU32]
      rw [if_pos hne]
    have hbv : binary_to_vec dec (b0 :: b1 :: b2 :: b3 :: rest) =
        .error .fileHeader := by
      simp [binary_to_vec, hval]
    simp [Client.load, hbv]
  · intro v rest cur app hv hne
    have e1 : le32 FILE_HEADER ++ le32 v ++ rest =
        le32 FILE_HEADER ++ (le32 v ++ rest) := by
      simp [List.append_assoc]
    have hval : validate_collection T (le32 FILE_HEADER ++ (le32 v ++ rest)) =
        .error (.fileVersion v) := by
      simp only [validate_collection, readU32_le32 FILE_HEADER (by decide),
        readU32_le32 v hv]
      rw [if_neg (by simp), if_pos hne]
    have hbv : binary_to_vec dec (le32 FILE_HEADER ++ le32 v ++ rest) =
        .error (.fileVersion v) := by
      rw [e1]
      simp [binary_to_vec, hval]
    have hemp : (le32 FILE_HEADER ++ le32 v ++ rest).isEmpty = false := by
      simp [le32]
    simp only [Client.load]
    rw [hemp, hbv]
    rfl

theorem c4_header_rejection_witness :
    (Client.load (fun _ => some (0 : Nat)) ⟨[9, 9, 9, 9], 0, false⟩).1 =
      .error .fileHeader
    ∧ (Client.load (fun _ => some (0 : Nat)) ⟨le32 FILE_HEADER ++ le32 7 ++ [], 0, false⟩).1 =
      .error (.fileVersion 7) :=
  ⟨(c4_header_rejection Nat (fun _ => some 0)).1 9 9 9 9 [] 0 false (by decide),
   (c4_header_rejection Nat (fun _ => some 0)).2 7 [] 0 false (by decide) (by decide)⟩

/-- Claim C1: encoding a sequence of serializable values on a fresh
container and loading it back (`vec_to_binary` then `binary_to_vec`, i.e.
`write_many` then `load` on a freshly created client) reproduces exactly
the values in their original order. -/
theorem c1_round_trip (T : Type) (enc : T → List Nat) (dec : List Nat → Option T)
    (V : List T) (existing : List Nat)
    (hdec : ∀ t ∈ V, dec (enc t) = some t)
    (hlen : ∀ t ∈ V, (enc t).length < 2 ^ 32)
    (hbytes : ∀ t ∈ V, ∀ b ∈ enc t, b < 256) :
    (vec_to_binary enc V).bind (binary_to_vec dec) = .ok V
    ∧ (Client.load dec ((Client.write_many enc V (Client.new false existing)).2)).1 =
        .ok (some V) := by
  have hvb := vec_to_binary_ok enc V hlen
  have hbounds : ∀ r ∈ V.map (fun x => (crc32 (enc x), enc x)),
      r.1 < 2 ^ 32 ∧ r.2.length < 2 ^ 32 := by
    intro r hr
    obtain ⟨x, hx, rfl⟩ := List.mem_map.mp hr
    refine ⟨crc32_lt (enc x) (fun b hb => ?_), hlen x hx⟩
    have := hbytes x hx b hb
    omega
  have e2 : (V.map (fun x => frame (crc32 (enc x), enc x))).flatten =
      ((V.map (fun x => (crc32 (enc x), enc x))).map frame).flatten ++ [] := by
    simp [List.map_map, Function.comp_def]
  have hload : binary_to_vec dec
      (headerBytes ++ (V.map (fun x => frame (crc32 (enc x), enc x))).flatten) =
      .ok V := by
    rw [e2, binary_to_vec_container dec _ [] hbounds (by decide), scanSpec_eq]
    have hda : decodeAll dec
        ((V.map (fun x => (crc32 (enc x), enc x))).map Prod.snd) = some V := by
      have e3 : (V.map (fun x => (crc32 (enc x), enc x))).map Prod.snd = V.map enc := by
        simp [List.map_map, Function.comp_def]
      rw [e3, decodeAll_map dec enc V hdec]
    have hgood : ∀ r ∈ V.map (fun x => (crc32 (enc x), enc x)), crc32 r.2 = r.1 := by
      intro r hr
      obtain ⟨x, hx, rfl⟩ := List.mem_map.mp hr
      rfl
    rw [hda, mismatchFold_good _ hgood none]
    simp
  constructor
  · rw [hvb]
    simpa [Except.bind] using hload
  · have hnew : Client.new false existing = ⟨[], 0, false⟩ := by simp [Client.new]
    rw [hnew]
    have hwm : Client.write_many enc V (⟨[], 0, false⟩ : ClientState) =
        (.ok (),
         ⟨headerBytes ++ (V.map (fun x => frame (crc32 (enc x), enc x))).flatten,
          (headerBytes ++ (V.map (fun x => frame (crc32 (enc x), enc x))).flatten).length,
          false⟩) := by
      simp [Client.write_many, hvb, writeAll, headerBytes, List.append_assoc]
    rw [hwm]
    have hemp : (headerBytes ++
        (V.map (fun x => frame (crc32 (enc x), enc x))).flatten).isEmpty = false := by
      simp [headerBytes, le32]
    simp only [Client.load]
    rw [hemp, hload]
    rfl

theorem c1_round_trip_witness :
    (vec_to_binary (fun n : Nat => List.replicate n 7) [2, 0, 3]).bind
        (binary_to_vec (fun l => some l.length)) = .ok [2, 0, 3]
    ∧ (Client.load (fun l => some l.length)
        ((Client.write_many (fun n : Nat => List.replicate n 7) [2, 0, 3]
          (Client.new false [])).2)).1 = .ok (some [2, 0, 3]) :=
  c1_round_trip Nat (fun n => List.replicate n 7) (fun l => some l.length) [2, 0, 3] []
    (by decide) (by decide) (by decide)

/-- Claim C8: for payloads whose encoded length fits in a `u32`, the
emitted record bytes are exactly the little-endian checksum, the
little-endian length, then the payload; any payload longer than
`u32::MAX` bytes makes the encode fail with `DataTooLarge`. -/
theorem c8_record_framing (T : Type) (enc : T → List Nat) (ts : List T) :
    ((∀ x ∈ ts, (enc x).length < 2 ^ 32) →
      vec_to_binary enc ts =
        .ok (headerBytes ++
          ((ts.map (fun x => le32 (crc32 (enc x)) ++ le32 (enc x).length ++ enc x)).flatten)))
    ∧ ((∃ x ∈ ts, 2 ^ 32 ≤ (enc x).length) →
      vec_to_binary enc ts = .error .dataTooLarge) := by
  constructor
  · intro h
    rw [vec_to_binary_ok enc ts h]
    simp [frame]
  · intro h
    simp [vec_to_binary, docsToBinary_too_large enc ts h]

theorem c8_record_framing_witness :
    vec_to_binary (fun n : Nat => List.replicate n 7) [2] =
      .ok (headerBytes ++
        (([2].map (fun x => le32 (crc32 (List.replicate x 7)) ++
          le32 (List.replicate x 7).length ++ List.replicate x 7)).flatten))
    ∧ vec_to_binary (fun n : Nat => List.replicate n 0) [2 ^ 32] =
      .error .dataTooLarge :=
  ⟨(c8_record_framing Nat (fun n => List.replicate n 7) [2]).1 (by decide),
   (c8_record_framing Nat (fun n => List.replicate n 0) [2 ^ 32]).2
     ⟨2 ^ 32, List.mem_singleton.mpr rfl, by rw [List.length_replicate]⟩⟩

/-- Claim C10: every `write`/`write_many` image starts with the 8-byte
header (magic then version, little-endian) whatever the slice contents;
`write_many` on the empty slice writes exactly the header, so a subsequent
`load` returns `Some` of the empty collection, not the "no data" `None`. -/
theorem c10_header_always (T : Type) (enc : T → List Nat) (dec : List Nat → Option T) :
    (∀ data buf, vec_to_binary enc data = .ok buf →
      buf.take 8 = le32 FILE_HEADER ++ le32 FILE_VERSION)
    ∧ (∀ t s, Client.write enc t s = Client.write_many enc [t] s)
    ∧ (Client.write_many enc [] (Client.new false [])).2.contents =
        le32 FILE_HEADER ++ le32 FILE_VERSION
    ∧ (Client.load dec ((Client.write_many enc [] (Client.new false [])).2)).1 =
        .ok (some []) := by
  have hvb : vec_to_binary enc ([] : List T) = .ok headerBytes := by
    simp [vec_to_binary, docsToBinary, headerBytes]
  have hwm : Client.write_many enc [] (Client.new false []) =
      (.ok (), ⟨headerBytes, headerBytes.length, false⟩) := by
    simp [Client.new, Client.write_many, hvb, writeAll]
  refine ⟨?_, ?_, ?_, ?_⟩
  · intro data buf h
    cases hdb : docsToBinary enc data with
    | error e => simp [vec_to_binary, hdb] at h
    | ok body =>
      simp only [vec_to_binary, hdb] at h
      injection h with h2
      subst h2
      rw [show (8 : Nat) = (le32 FILE_HEADER ++ le32 FILE_VERSION).length from rfl,
        List.take_left]
  · intro t s
    rfl
  · rw [hwm]
    rfl
  · rw [hwm]
    have hcont : headerBytes =
        headerBytes ++ ((([] : List (Nat × List Nat)).map frame).flatten ++ []) := by
      simp
    have hbv : binary_to_vec dec headerBytes = .ok ([] : List T) := by
      rw [hcont, binary_to_vec_container dec [] [] (by simp) (by decide)]
      rfl
    have hemp : headerBytes.isEmpty = false := by decide
    simp only [Client.load]
    rw [hemp, hbv]
    rfl

theorem c10_header_always_witness :
    (le32 FILE_HEADER ++ le32 FILE_VERSION).take 8 = le32 FILE_HEADER ++ le32 FILE_VERSION
    ∧ (Client.load (fun _ => some ())
        ((Client.write_many (fun _ : Unit => ([] : List Nat)) []
          (Client.new false [])).2)).1 = .ok (some []) :=
  ⟨(c10_header_always Unit (fun _ => []) (fun _ => some ())).1 []
      (le32 FILE_HEADER ++ le32 FILE_VERSION) rfl,
   (c10_header_always Unit (fun _ => []) (fun _ => some ())).2.2.2⟩

/-- Claim C9 (refuted; the code contradicts its own `Client::new`
documentation): the persistence operation `write_many` is not idempotent
on a non-append client.  Writing the same (empty) slice twice with no
intervening mutation appends a second image: the file holds the 8-byte
header twice (16 bytes), not a byte-identical image of the first write,
because `write_many` never seeks or truncates — truncation happens only
once, at `Client::new`. -/
theorem c9_flush_not_idempotent :
    (Client.write_many (fun _ : Unit => ([] : List Nat)) []
        (Client.write_many (fun _ : Unit => ([] : List Nat)) []
          (Client.new false [])).2).2.contents =
      (Client.write_many (fun _ : Unit => ([] : List Nat)) []
          (Client.new false [])).2.contents ++
        (Client.write_many (fun _ : Unit => ([] : List Nat)) []
          (Client.new false [])).2.contents
    ∧ (Client.write_many (fun _ : Unit => ([] : List Nat)) []
        (Client.write_many (fun _ : Unit => ([] : List Nat)) []
          (Client.new false [])).2).2.contents ≠
      (Client.write_many (fun _ : Unit => ([] : List Nat)) []
          (Client.new false [])).2.contents
    ∧ (Client.write_many (fun _ : Unit => ([] : List Nat)) []
        (Client.new false [])).1 = .ok ()
    ∧ (Client.write_many (fun _ : Unit => ([] : List Nat)) []
        (Client.write_many (fun _ : Unit => ([] : List Nat)) []
          (Client.new false [])).2).1 = .ok () := by
  exact ⟨rfl, by decide, rfl, rfl⟩

/-- Claim C7: a record whose payload fails to decode into `T` makes the
load abort immediately with the decode error (`SerdeError`), which carries
no partial collection — whether or not that record's checksum matched. -/
theorem c7_decode_failure_fatal (T : Type) (dec : List Nat → Option T)
    (rs1 : List (Nat × List Nat)) (s : Nat) (p : List Nat) (rs2 : List (Nat × List Nat))
    (hb1 : ∀ r ∈ rs1, r.1 < 2 ^ 32 ∧ r.2.length < 2 ^ 32)
    (hs : s < 2 ^ 32) (hp : p.length < 2 ^ 32)
    (hb2 : ∀ r ∈ rs2, r.1 < 2 ^ 32 ∧ r.2.length < 2 ^ 32)
    (vs1 : List T) (hdec1 : decodeAll dec (rs1.map Prod.snd) = some vs1)
    (hdecp : dec p = none) :
    binary_to_vec dec
        (headerBytes ++ (((rs1 ++ (s, p) :: rs2).map frame).flatten ++ [])) =
      .error .serdeError := by
  have hb : ∀ r ∈ rs1 ++ (s, p) :: rs2, r.1 < 2 ^ 32 ∧ r.2.length < 2 ^ 32 := by
    intro r hr
    rcases List.mem_append.mp hr with h1 | h2
    · exact hb1 r h1
    · rcases List.mem_cons.mp h2 with rfl | h3
      · exact ⟨hs, hp⟩
      · exact hb2 r h3
  rw [binary_to_vec_container dec _ [] hb (by decide), scanSpec_eq]
  have hda : decodeAll dec ((rs1 ++ (s, p) :: rs2).map Prod.snd) = none := by
    rw [List.map_append, decodeAll_append, hdec1]
    simp [decodeAll, hdecp]
  rw [hda]

theorem c7_decode_failure_fatal_witness :
    binary_to_vec (fun l => if l = [9] then none else some l)
        (headerBytes ++ ((([(crc32 [1], [1])] ++ (0, [9]) :: []).map frame).flatten ++ [])) =
      .error .serdeError :=
  c7_decode_failure_fatal (List Nat) (fun l => if l = [9] then none else some l)
    [(crc32 [1], [1])] 0 [9] [] (by decide) (by decide) (by decide) (by decide)
    [[1]] (by decide) (by decide)

/-- Claim C6: when at least one checksum mismatch occurs (and every payload
still decodes), the poisoned result wraps the entire recovered collection
together with exactly one checksum pair: that of the last mismatching
record, even when several records are corrupted. -/
theorem c6_last_mismatch (T : Type) (dec : List Nat → Option T)
    (rs1 : List (Nat × List Nat)) (m : Nat × List Nat) (rs2 : List (Nat × List Nat))
    (hb1 : ∀ r ∈ rs1, r.1 < 2 ^ 32 ∧ r.2.length < 2 ^ 32)
    (hbm : m.1 < 2 ^ 32 ∧ m.2.length < 2 ^ 32)
    (hb2 : ∀ r ∈ rs2, r.1 < 2 ^ 32 ∧ r.2.length < 2 ^ 32)
    (hmm2 : crc32 m.2 ≠ m.1)
    (hgood2 : ∀ r ∈ rs2, crc32 r.2 = r.1)
    (vs : List T)
    (hdec : decodeAll dec ((rs1 ++ m :: rs2).map Prod.snd) = some vs) :
    binary_to_vec dec (headerBytes ++ (((rs1 ++ m :: rs2).map frame).flatten ++ [])) =
      .error (.mismatchedChecksum ⟨vs, ⟨m.1, crc32 m.2⟩⟩) := by
  have hb : ∀ r ∈ rs1 ++ m :: rs2, r.1 < 2 ^ 32 ∧ r.2.length < 2 ^ 32 := by
    intro r hr
    rcases List.mem_append.mp hr with h1 | h2
    · exact hb1 r h1
    · rcases List.mem_cons.mp h2 with rfl | h3
      · exact hbm
      · exact hb2 r h3
  rw [binary_to_vec_container dec _ [] hb (by decide), scanSpec_eq, hdec]
  have hmf : mismatchFold none (rs1 ++ m :: rs2) = some ⟨m.1, crc32 m.2⟩ := by
    rw [mismatchFold_append]
    have e : mismatchFold (mismatchFold none rs1) (m :: rs2) =
        mismatchFold (some ⟨m.1, crc32 m.2⟩) rs2 := by
      simp only [mismatchFold, List.foldl_cons]
      rw [if_neg hmm2]
    rw [e, mismatchFold_good rs2 hgood2]
  rw [hmf]
  rfl

theorem c6_last_mismatch_witness :
    binary_to_vec (fun l => some l)
        (headerBytes ++
          ((([(0, [1]), (0, [2])] ++ (5, [3]) :: [(crc32 [4], [4])]).map frame).flatten ++ [])) =
      .error (.mismatchedChecksum ⟨[[1], [2], [3], [4]], ⟨5, crc32 [3]⟩⟩) :=
  c6_last_mismatch (List Nat) (fun l => some l) [(0, [1]), (0, [2])] (5, [3])
    [(crc32 [4], [4])] (by decide) (by decide) (by decide) (by decide) (by decide)
    [[1], [2], [3], [4]] (by decide)

/-- Claim C3: flipping a single payload byte in one record of an otherwise
valid container (leaving its stored checksum and length field intact)
makes `load` return a poisoned result whose recovered collection still
holds every record — the corrupted one decoded best-effort — and whose
diagnostic pair is the corrupted record's stored checksum next to the
checksum recomputed over the corrupted payload; the scan does not abort at
the mismatch.  The mismatch itself is guaranteed: CRC-32 detects every
single-byte change (`crc32_flip_ne`). -/
theorem c3_corruption_isolation (T : Type) (dec : List Nat → Option T)
    (ps1 ps2 : List (List Nat)) (pre suf : List Nat) (bOld bNew : Nat)
    (hps1 : ∀ p ∈ ps1, (∀ b ∈ p, b < 256) ∧ p.length < 2 ^ 32)
    (hps2 : ∀ p ∈ ps2, (∀ b ∈ p, b < 256) ∧ p.length < 2 ^ 32)
    (hpre : ∀ b ∈ pre, b < 256) (hsuf : ∀ b ∈ suf, b < 256)
    (hbOld : bOld < 256) (hbNew : bNew < 256) (hflip : bNew ≠ bOld)
    (hlen : pre.length + suf.length + 1 < 2 ^ 32)
    (vs1 vs2 : List T) (w : T)
    (hdec1 : decodeAll dec ps1 = some vs1)
    (hdec2 : decodeAll dec ps2 = some vs2)
    (hdecw : dec (pre ++ bNew :: suf) = some w) :
    binary_to_vec dec (headerBytes ++
        (((ps1.map (fun p => (crc32 p, p)) ++
          (crc32 (pre ++ bOld :: suf), pre ++ bNew :: suf) ::
          ps2.map (fun p => (crc32 p, p))).map frame).flatten ++ [])) =
      .error (.mismatchedChecksum
        ⟨vs1 ++ w :: vs2, ⟨crc32 (pre ++ bOld :: suf), crc32 (pre ++ bNew :: suf)⟩⟩) := by
  have horig_lt : crc32 (pre ++ bOld :: suf) < 2 ^ 32 := by
    apply crc32_lt
    intro b hb
    rcases List.mem_append.mp hb with h | h
    · have := hpre b h
      omega
    · rcases List.mem_cons.mp h with rfl | h2
      · omega
      · have := hsuf b h2
        omega
  have hcorr_len : (pre ++ bNew :: suf).length < 2 ^ 32 := by
    simp only [List.length_append, List.length_cons]
    omega
  have hb : ∀ r ∈ ps1.map (fun p => (crc32 p, p)) ++
      (crc32 (pre ++ bOld :: suf), pre ++ bNew :: suf) ::
      ps2.map (fun p => (crc32 p, p)),
      r.1 < 2 ^ 32 ∧ r.2.length < 2 ^ 32 := by
    intro r hr
    rcases List.mem_append.mp hr with h | h
    · obtain ⟨p, hp, rfl⟩ := List.mem_map.mp h
      obtain ⟨hb256, hplen⟩ := hps1 p hp
      exact ⟨crc32_lt p (fun b hbp => by have := hb256 b hbp; omega), hplen⟩
    · rcases List.mem_cons.mp h with rfl | h2
      · exact ⟨horig_lt, hcorr_len⟩
      · obtain ⟨p, hp, rfl⟩ := List.mem_map.mp h2
        obtain ⟨hb256, hplen⟩ := hps2 p hp
        exact ⟨crc32_lt p (fun b hbp => by have := hb256 b hbp; omega), hplen⟩
  rw [binary_to_vec_container dec _ [] hb (by decide), scanSpec_eq]
  have hsndmap : ∀ ps : List (List Nat),
      (ps.map (fun p => (crc32 p, p))).map Prod.snd = ps := by
    intro ps
    simp [List.map_map, Function.comp_def]
  have hda : decodeAll dec
      ((ps1.map (fun p => (crc32 p, p)) ++
        (crc32 (pre ++ bOld :: suf), pre ++ bNew :: suf) ::
        ps2.map (fun p => (crc32 p, p))).map Prod.snd) = some (vs1 ++ w :: vs2) := by
    rw [List.map_append, decodeAll_append, hsndmap ps1, hdec1]
    simp [decodeAll, hdecw, hsndmap ps2, hdec2]
  rw [hda]
  have hne : crc32 (pre ++ bNew :: suf) ≠ crc32 (pre ++ bOld :: suf) :=
    crc32_flip_ne pre suf (by omega) (by omega) hflip
      (fun x hx => by have := hpre x hx; omega)
      (fun x hx => by have := hsuf x hx; omega)
  have hmf : mismatchFold none
      (ps1.map (fun p => (crc32 p, p)) ++
        (crc32 (pre ++ bOld :: suf), pre ++ bNew :: suf) ::
        ps2.map (fun p => (crc32 p, p))) =
      some ⟨crc32 (pre ++ bOld :: suf), crc32 (pre ++ bNew :: suf)⟩ := by
    rw [mismatchFold_append]
    have hg1 : mismatchFold none (ps1.map (fun p => (crc32 p, p))) = none :=
      mismatchFold_good _
        (by intro r hr; obtain ⟨p, hp, rfl⟩ := List.mem_map.mp hr; rfl) none
    rw [hg1]
    have e : mismatchFold none
        ((crc32 (pre ++ bOld :: suf), pre ++ bNew :: suf) ::
          ps2.map (fun p => (crc32 p, p))) =
        mismatchFold
          (some ⟨crc32 (pre ++ bOld :: suf), crc32 (pre ++ bNew :: suf)⟩)
          (ps2.map (fun p => (crc32 p, p))) := by
      simp only [mismatchFold, List.foldl_cons]
      rw [if_neg hne]
    rw [e]
    exact mismatchFold_good _
      (by intro r hr; obtain ⟨p, hp, rfl⟩ := List.mem_map.mp hr; rfl) _
  rw [hmf]
  rfl

theorem c3_corruption_isolation_witness :
    binary_to_vec (fun l => some l)
        (headerBytes ++
          ((([[1]].map (fun p => (crc32 p, p)) ++
            (crc32 ([] ++ 0 :: []), [] ++ 1 :: []) ::
            [[2]].map (fun p => (crc32 p, p))).map frame).flatten ++ [])) =
      .error (.mismatchedChecksum
        ⟨[[1]] ++ [1] :: [[2]], ⟨crc32 ([] ++ 0 :: []), crc32 ([] ++ 1 :: [])⟩⟩) :=
  c3_corruption_isolation (List Nat) (fun l => some l) [[1]] [[2]] [] [] 0 1
    (by decide) (by decide) (by decide) (by decide) (by decide) (by decide)
    (by decide) (by decide) [[1]] [[2]] [1] (by decide) (by decide) (by decide)

/-- Claim C2 counterexample: truncating a well-formed one-record container
strictly inside its payload (18 of 20 bytes kept, cutting the 4-byte
payload to 2 bytes) does *not* make `load` return the prior complete
records (`Ok []`) with the tail as a clean end of stream.  The truncated
payload is read to end-of-stream without an `UnexpectedEof`, fails the
checksum comparison, and the load returns a poisoned
`MismatchedChecksum` error instead. -/
theorem c2_truncation_counterexample :
    vec_to_binary (fun _ : Nat => [0, 0, 0, 0]) [0] =
      .ok (le32 FILE_HEADER ++ le32 FILE_VERSION ++
        (le32 (crc32 [0, 0, 0, 0]) ++ le32 4 ++ [0, 0, 0, 0]))
    ∧ binary_to_vec (fun _ => some (0 : Nat))
        ((le32 FILE_HEADER ++ le32 FILE_VERSION ++
          (le32 (crc32 [0, 0, 0, 0]) ++ le32 4 ++ [0, 0, 0, 0])).take 18) =
      .error (.mismatchedChecksum ⟨[0], ⟨crc32 [0, 0, 0, 0], crc32 [0, 0]⟩⟩)
    ∧ binary_to_vec (fun _ => some (0 : Nat))
        ((le32 FILE_HEADER ++ le32 FILE_VERSION ++
          (le32 (crc32 [0, 0, 0, 0]) ++ le32 4 ++ [0, 0, 0, 0])).take 18) ≠
      .ok [] := by
  refine ⟨rfl, rfl, ?_⟩
  intro h
  exact Except.noConfusion h

/-- Claim C2 as amended: truncating a well-formed container strictly
inside a record's 8-byte *framing* (so that fewer than 8 bytes of the
truncated record remain) makes `load` return all complete records that
precede the truncation as a clean success, treating the truncated tail as
the end of the stream rather than an error.  (Truncation inside the
*payload* instead takes the checksum-mismatch path, see the
counterexample.) -/
theorem c2_truncation_framing (T : Type) (dec : List Nat → Option T)
    (rs : List (Nat × List Nat)) (t : List Nat) (ht : t.length < 8)
    (hcs : ∀ r ∈ rs, crc32 r.2 = r.1 ∧ r.2.length < 2 ^ 32 ∧ ∀ b ∈ r.2, b < 256)
    (vs : List T) (hdec : decodeAll dec (rs.map Prod.snd) = some vs) :
    binary_to_vec dec (headerBytes ++ ((rs.map frame).flatten ++ t)) = .ok vs := by
  have hb : ∀ r ∈ rs, r.1 < 2 ^ 32 ∧ r.2.length < 2 ^ 32 := by
    intro r hr
    obtain ⟨h1, h2, h3⟩ := hcs r hr
    refine ⟨?_, h2⟩
    rw [← h1]
    exact crc32_lt r.2 (fun b hb2 => by have := h3 b hb2; omega)
  rw [binary_to_vec_container dec rs t hb ht, scanSpec_eq, hdec,
    mismatchFold_good rs (fun r hr => (hcs r hr).1) none]
  rfl

theorem c2_truncation_framing_witness :
    binary_to_vec (fun l => some l.length)
        (headerBytes ++ (([(crc32 [5], [5])].map frame).flatten ++ [1, 2, 3])) =
      .ok [1] :=
  c2_truncation_framing Nat (fun l => some l.length) [(crc32 [5], [5])] [1, 2, 3]
    (by decide) (by decide) [1] (by decide)
